import Mathlib

/-!
Verification development for the `coco` container companion tool
(`src/coco/coco.py`, `src/coco/utils.py`).

The Python source is shallowly embedded below.  External effects are made
explicit parameters:

* `PullEnv` models the process environment seen by `pull_image`: the result
  of `shutil.which("docker")` and, for a located executable, the
  `subprocess.CompletedProcess` produced by running `docker pull <image>`.
* `EngineEnv` models the thread-pool futures created by
  `pull_images`: `futureResult n` is what `future.result()` of the `n`-th
  submitted future yields (`Except.error` when the worker raised, mirroring
  how a Python future re-raises a stored exception), and `doneAt n` is the
  first render-loop tick at which `future.done()` is true.
* Python exceptions are `Except.error` values carrying the exception class
  name or message; `typer.Exit` exit codes and uncaught exceptions of a CLI
  command are the `CmdResult` type.
* The render loop of `pull_images` is a fueled recursion (`engineLoop`);
  fuel exhaustion returns a distinguished `Option.none` marker, an artifact
  of bounded modelling that hypotheses rule out wherever the loop is known
  to terminate.
-/

/-- Result record of `subprocess.run(..., capture_output=True, text=True)`:
exit code plus captured standard output and standard error. -/
structure CompletedProcess where
  returncode : Int
  stdout : String
  stderr : String
deriving DecidableEq, Repr

/-- Environment of the pull side: `dockerExe` is `shutil.which("docker")`,
and `runPull exe image` is the `CompletedProcess` of
`subprocess.run([exe, "pull", image], capture_output=True, text=True)`. -/
structure PullEnv where
  dockerExe : Option String
  runPull : String → String → CompletedProcess

/-- `get_docker_executable` (coco.py lines 33-40): returns the path found by
`shutil.which("docker")` or raises `RuntimeError("Docker executable not
found in PATH.")` when it is `None`. -/
def get_docker_executable (env : PullEnv) : Except String String :=
  match env.dockerExe with
  | none => .error "Docker executable not found in PATH."
  | some exe => .ok exe

/-- `pull_image` (coco.py lines 43-59): locates the docker executable (which
may raise) and runs `docker pull <image>`, returning the completed process. -/
def pull_image (env : PullEnv) (image : String) : Except String CompletedProcess :=
  match get_docker_executable env with
  | .error e => .error e
  | .ok exe => .ok (env.runPull exe image)

/-- The status strings stored in each task record ("Running", "Success",
"Failed"). -/
inductive Status where
  | Running
  | Success
  | Failed
deriving DecidableEq, Repr

/-- One entry of the `tasks` dict of `pull_images` (coco.py lines 128-133):
the image name (the dict key), the index of the submitted future stored in
the entry, and the current status string. -/
structure PullTask where
  image : String
  fut : Nat
  status : Status
deriving DecidableEq, Repr

/-- Status assigned when a future resolves with exit code `rc`
(coco.py lines 141 and 156): `"Success" if ret == 0 else "Failed"`. -/
def statusOf (rc : Int) : Status :=
  if rc = 0 then .Success else .Failed

/-- Boolean membership test, as Python `x in dict` / hashing by `==`. -/
def listHas [BEq α] (l : List α) (a : α) : Bool :=
  l.any (fun y => y == a)

/-- The effect of `tasks[image] = {"future": future, "status": "Running"}`
on the insertion-ordered dict (keys are image strings, values the index of
the stored future): an existing key keeps its position but its value is
overwritten; a new key is appended. -/
def dictInsert (acc : List (String × Nat)) (img : String) (fi : Nat) :
    List (String × Nat) :=
  if listHas (acc.map (fun p => p.1)) img then
    acc.map (fun p => if p.1 == img then (p.1, fi) else p)
  else
    acc ++ [(img, fi)]

/-- The submission loop of `pull_images` (coco.py lines 131-133): one
`executor.submit(pull_image, image)` per input line, each stored into the
dict keyed by the image string.  `fi` counts submissions. -/
def submitGo (acc : List (String × Nat)) (fi : Nat) :
    List String → List (String × Nat)
  | [] => acc
  | img :: rest => submitGo (dictInsert acc img fi) (fi + 1) rest

/-- The tasks dict after the whole submission loop, as an ordered
association list. -/
def submitAll (images : List String) : List (String × Nat) :=
  submitGo [] 0 images

/-- The initial task list: every stored entry starts with status "Running". -/
def initTasks (images : List String) : List PullTask :=
  (submitAll images).map (fun p => { image := p.1, fut := p.2, status := .Running })

/-- Environment of the render loop: `futureResult n` is what
`future.result()` of submission `n` returns (or the exception it re-raises),
`doneAt n` the first tick at which `future.done()` holds. -/
structure EngineEnv where
  futureResult : Nat → Except String CompletedProcess
  doneAt : Nat → Nat

/-- The engine environment induced by running `pull_image` in a worker
thread for each submitted image: submission `n` pulls `images[n]`. -/
def mkEngineEnv (penv : PullEnv) (images : List String) (doneAt : Nat → Nat) :
    EngineEnv :=
  { futureResult := fun n => pull_image penv (images.getD n "")
    doneAt := doneAt }

/-- One iteration of the status-update loop body for a single task
(coco.py lines 138-141): if the future is done and the status is still
"Running", read `future.result().returncode` (re-raising any stored
exception) and set the terminal status. -/
def updateTask1 (env : EngineEnv) (t : Nat) (task : PullTask) : Except String PullTask :=
  if env.doneAt task.fut ≤ t ∧ task.status = .Running then
    match env.futureResult task.fut with
    | .ok r => .ok { task with status := statusOf r.returncode }
    | .error e => .error e
  else
    .ok task

/-- The `for image, data in tasks.items()` update loop (coco.py lines
138-141), processing tasks in dict order; the first raised exception
propagates. -/
def updateTasks (env : EngineEnv) (t : Nat) : List PullTask → Except String (List PullTask)
  | [] => .ok []
  | task :: rest =>
    match updateTask1 env t task with
    | .error e => .error e
    | .ok task' =>
      match updateTasks env t rest with
      | .error e => .error e
      | .ok rest' => .ok (task' :: rest')

/-- One iteration of the final update loop for a single task (coco.py lines
153-156): same rule, but `future.done()` is no longer consulted. -/
def finalTask (env : EngineEnv) (task : PullTask) : Except String PullTask :=
  if task.status = .Running then
    match env.futureResult task.fut with
    | .ok r => .ok { task with status := statusOf r.returncode }
    | .error e => .error e
  else
    .ok task

/-- The final `for image, data in tasks.items()` loop (coco.py lines
152-156). -/
def finalUpdate (env : EngineEnv) : List PullTask → Except String (List PullTask)
  | [] => .ok []
  | task :: rest =>
    match finalTask env task with
    | .error e => .error e
    | .ok task' =>
      match finalUpdate env rest with
      | .error e => .error e
      | .ok rest' => .ok (task' :: rest')

/-- The while-loop condition `all(data["future"].done() for data in
tasks.values())` (coco.py line 136) at tick `t`. -/
def allDone (env : EngineEnv) (t : Nat) (tasks : List PullTask) : Bool :=
  tasks.all (fun task => decide (env.doneAt task.fut ≤ t))

/-- The render loop (coco.py lines 136-151), one tick per iteration (the
`time.sleep(0.2)` frame).  Returns `Except.error` when a status update
re-raises a worker exception, `Option.none` when the fuel bound is
exhausted while the loop would still be spinning (modelling artifact, never
reached under the termination hypotheses used below), and the task list
plus exit tick otherwise. -/
def engineLoop (env : EngineEnv) :
    Nat → Nat → List PullTask → Except String (Option (List PullTask × Nat))
  | 0, t, tasks =>
    if allDone env t tasks then .ok (some (tasks, t)) else .ok none
  | fuel + 1, t, tasks =>
    if allDone env t tasks then .ok (some (tasks, t))
    else
      match updateTasks env t tasks with
      | .error e => .error e
      | .ok tasks' => engineLoop env fuel (t + 1) tasks'

/-- The whole engine run of `pull_images` (coco.py lines 135-163): render
loop, then the final update loop that resolves any remaining "Running"
entries before the last re-render. -/
def runEngine (env : EngineEnv) (fuel : Nat) (tasks0 : List PullTask) :
    Except String (Option (List PullTask)) :=
  match engineLoop env fuel 0 tasks0 with
  | .error e => .error e
  | .ok none => .ok none
  | .ok (some (tasks, _)) =>
    match finalUpdate env tasks with
    | .error e => .error e
    | .ok tasks' => .ok (some tasks')

/-- The rows of `build_status_table` (coco.py lines 62-85): one row per
tasks-dict entry, enumerated from 1, in dict order, showing index, image
and status. -/
def build_status_table (tasks : List PullTask) : List (Nat × String × Status) :=
  tasks.enum.map (fun p => (p.1 + 1, p.2.image, p.2.status))

/-- The terminal record a task ends at once its future's exit code is read:
status `"Success"` for exit code 0, `"Failed"` otherwise.  (`resCode` below
extracts the code; it is only meaningful when the future resolved without
raising.) -/
def resCode (env : EngineEnv) (n : Nat) : Int :=
  match env.futureResult n with
  | .ok r => r.returncode
  | .error _ => 0

/-- The task as it looks after its status was resolved from its future's
exit code. -/
def finalOf (env : EngineEnv) (task : PullTask) : PullTask :=
  { task with status := statusOf (resCode env task.fut) }

/-- Pure form of `updateTask1` on the exception-free path. -/
def pureUpdate (env : EngineEnv) (t : Nat) (task : PullTask) : PullTask :=
  if env.doneAt task.fut ≤ t ∧ task.status = .Running then finalOf env task
  else task

/-- Invariant of the render loop: a task is either still "Running" or its
status already equals the terminal status determined by its future's exit
code. -/
def taskInv (env : EngineEnv) (task : PullTask) : Prop :=
  task.status = .Running ∨ task.status = statusOf (resCode env task.fut)

lemma finalOf_image (env : EngineEnv) (task : PullTask) :
    (finalOf env task).image = task.image := rfl

lemma finalOf_fut (env : EngineEnv) (task : PullTask) :
    (finalOf env task).fut = task.fut := rfl

lemma pureUpdate_image (env : EngineEnv) (t : Nat) (task : PullTask) :
    (pureUpdate env t task).image = task.image := by
  unfold pureUpdate
  split <;> rfl

lemma pureUpdate_fut (env : EngineEnv) (t : Nat) (task : PullTask) :
    (pureUpdate env t task).fut = task.fut := by
  unfold pureUpdate
  split <;> rfl

lemma finalOf_pureUpdate (env : EngineEnv) (t : Nat) (task : PullTask) :
    finalOf env (pureUpdate env t task) = finalOf env task := by
  unfold pureUpdate
  split <;> rfl

lemma finalOf_of_status_eq (env : EngineEnv) (task : PullTask)
    (h : task.status = statusOf (resCode env task.fut)) :
    finalOf env task = task := by
  cases task with
  | mk i f s => simpa [finalOf] using h.symm

lemma taskInv_pureUpdate (env : EngineEnv) (t : Nat) (task : PullTask)
    (h : taskInv env task) : taskInv env (pureUpdate env t task) := by
  unfold pureUpdate
  split
  · exact Or.inr rfl
  · exact h

lemma updateTask1_eq_pureUpdate (env : EngineEnv) (t : Nat) (task : PullTask)
    (hok : (env.futureResult task.fut).isOk = true) :
    updateTask1 env t task = .ok (pureUpdate env t task) := by
  unfold updateTask1 pureUpdate
  split
  · cases h : env.futureResult task.fut with
    | ok r => simp [finalOf, resCode, h]
    | error e => rw [h] at hok; simp [Except.isOk, Except.toBool] at hok
  · rfl

lemma updateTasks_eq_map (env : EngineEnv) (t : Nat)
    (hok : ∀ n, (env.futureResult n).isOk = true) :
    ∀ tasks : List PullTask,
      updateTasks env t tasks = .ok (tasks.map (pureUpdate env t)) := by
  intro tasks
  induction tasks with
  | nil => rfl
  | cons task rest ih =>
    simp only [updateTasks, updateTask1_eq_pureUpdate env t task (hok task.fut), ih,
      List.map_cons]

lemma finalTask_eq_finalOf (env : EngineEnv) (task : PullTask)
    (hok : (env.futureResult task.fut).isOk = true)
    (hinv : taskInv env task) :
    finalTask env task = .ok (finalOf env task) := by
  unfold finalTask
  split
  · cases h : env.futureResult task.fut with
    | ok r => simp [finalOf, resCode, h]
    | error e => rw [h] at hok; simp [Except.isOk, Except.toBool] at hok
  · rcases hinv with hrun | hterm
    · exact absurd hrun (by assumption)
    · rw [finalOf_of_status_eq env task hterm]

lemma finalUpdate_eq_map (env : EngineEnv)
    (hok : ∀ n, (env.futureResult n).isOk = true) :
    ∀ tasks : List PullTask, (∀ task ∈ tasks, taskInv env task) →
      finalUpdate env tasks = .ok (tasks.map (finalOf env)) := by
  intro tasks
  induction tasks with
  | nil => intro _; rfl
  | cons task rest ih =>
    intro hinv
    simp only [finalUpdate,
      finalTask_eq_finalOf env task (hok task.fut) (hinv task (by simp)),
      ih (fun task h => hinv task (by simp [h])), List.map_cons]

lemma allDone_of_bound (env : EngineEnv) (t : Nat) (tasks : List PullTask)
    (hb : ∀ task ∈ tasks, env.doneAt task.fut ≤ t) :
    allDone env t tasks = true := by
  unfold allDone
  rw [List.all_eq_true]
  intro task h
  exact decide_eq_true (hb task h)

lemma engineLoop_ok (env : EngineEnv)
    (hok : ∀ n, (env.futureResult n).isOk = true) :
    ∀ fuel t (tasks : List PullTask),
      (∀ task ∈ tasks, taskInv env task) →
      (∀ task ∈ tasks, env.doneAt task.fut ≤ t + fuel) →
      ∃ tasks' t', engineLoop env fuel t tasks = .ok (some (tasks', t')) ∧
        (∀ task ∈ tasks', taskInv env task) ∧
        tasks'.map (finalOf env) = tasks.map (finalOf env) := by
  intro fuel
  induction fuel with
  | zero =>
    intro t tasks hinv hb
    refine ⟨tasks, t, ?_, hinv, rfl⟩
    simp [engineLoop, allDone_of_bound env t tasks (by simpa using hb)]
  | succ fuel ih =>
    intro t tasks hinv hb
    by_cases hAll : allDone env t tasks = true
    · exact ⟨tasks, t, by simp [engineLoop, hAll], hinv, rfl⟩
    · have hup := updateTasks_eq_map env t hok tasks
      have hinv' : ∀ task ∈ tasks.map (pureUpdate env t), taskInv env task := by
        intro task h
        rcases List.mem_map.mp h with ⟨task0, h0, rfl⟩
        exact taskInv_pureUpdate env t task0 (hinv task0 h0)
      have hb' : ∀ task ∈ tasks.map (pureUpdate env t),
          env.doneAt task.fut ≤ (t + 1) + fuel := by
        intro task h
        rcases List.mem_map.mp h with ⟨task0, h0, rfl⟩
        rw [pureUpdate_fut]
        calc env.doneAt task0.fut ≤ t + (fuel + 1) := hb task0 h0
          _ = (t + 1) + fuel := by omega
      rcases ih (t + 1) (tasks.map (pureUpdate env t)) hinv' hb' with
        ⟨tasks', t', hloop, hinv'', hmap⟩
      refine ⟨tasks', t', ?_, hinv'', ?_⟩
      · simp [engineLoop, hAll, hup, hloop]
      · rw [hmap, List.map_map]
        exact List.map_congr_left (fun task _ => finalOf_pureUpdate env t task)

lemma runEngine_ok (env : EngineEnv) (fuel : Nat) (tasks0 : List PullTask)
    (hok : ∀ n, (env.futureResult n).isOk = true)
    (hinv : ∀ task ∈ tasks0, taskInv env task)
    (hb : ∀ task ∈ tasks0, env.doneAt task.fut ≤ fuel) :
    runEngine env fuel tasks0 = .ok (some (tasks0.map (finalOf env))) := by
  rcases engineLoop_ok env hok fuel 0 tasks0 hinv (by simpa using hb) with
    ⟨tasks', t', hloop, hinv', hmap⟩
  have hfin := finalUpdate_eq_map env hok tasks' hinv'
  simp [runEngine, hloop, hfin, hmap]

lemma updateTasks_error (env : EngineEnv) (t : Nat) (e : String)
    (herr : ∀ n, env.futureResult n = .error e) :
    ∀ tasks : List PullTask, (∀ task ∈ tasks, task.status = .Running) →
      updateTasks env t tasks =
        if tasks.any (fun task => decide (env.doneAt task.fut ≤ t)) then .error e
        else .ok tasks := by
  intro tasks
  induction tasks with
  | nil => intro _; rfl
  | cons task rest ih =>
    intro hrun
    by_cases hd : env.doneAt task.fut ≤ t
    · have h1 : updateTask1 env t task = .error e := by
        unfold updateTask1
        rw [if_pos ⟨hd, hrun task (by simp)⟩, herr task.fut]
      simp [updateTasks, h1, List.any_cons, hd]
    · have h1 : updateTask1 env t task = .ok task := by
        unfold updateTask1
        rw [if_neg (fun hc => hd hc.1)]
      have hrest := ih (fun task h => hrun task (by simp [h]))
      by_cases ha : rest.any (fun task => decide (env.doneAt task.fut ≤ t)) = true
      · rw [ha] at hrest
        simp [updateTasks, h1, hrest, List.any_cons, hd, ha]
      · rw [Bool.not_eq_true] at ha
        rw [ha] at hrest
        simp [updateTasks, h1, hrest, List.any_cons, hd, ha]

lemma engineLoop_error_or_unchanged (env : EngineEnv) (e : String)
    (herr : ∀ n, env.futureResult n = .error e) :
    ∀ fuel t (tasks : List PullTask),
      (∀ task ∈ tasks, task.status = .Running) →
      (∀ task ∈ tasks, env.doneAt task.fut ≤ t + fuel) →
      engineLoop env fuel t tasks = .error e ∨
        ∃ t', engineLoop env fuel t tasks = .ok (some (tasks, t')) := by
  intro fuel
  induction fuel with
  | zero =>
    intro t tasks hrun hb
    right
    exact ⟨t, by simp [engineLoop, allDone_of_bound env t tasks (by simpa using hb)]⟩
  | succ fuel ih =>
    intro t tasks hrun hb
    by_cases hAll : allDone env t tasks = true
    · exact Or.inr ⟨t, by simp [engineLoop, hAll]⟩
    · have hup := updateTasks_error env t e herr tasks hrun
      by_cases ha : tasks.any (fun task => decide (env.doneAt task.fut ≤ t)) = true
      · rw [ha] at hup
        left
        simp [engineLoop, hAll, hup]
      · rw [Bool.not_eq_true] at ha
        rw [ha] at hup
        have hb' : ∀ task ∈ tasks, env.doneAt task.fut ≤ (t + 1) + fuel := by
          intro task h
          calc env.doneAt task.fut ≤ t + (fuel + 1) := hb task h
            _ = (t + 1) + fuel := by omega
        rcases ih (t + 1) tasks hrun hb' with hloop | ⟨t', hloop⟩
        · left
          simp [engineLoop, hAll, hup, hloop]
        · right
          exact ⟨t', by simp [engineLoop, hAll, hup, hloop]⟩

lemma runEngine_error (env : EngineEnv) (fuel : Nat) (e : String)
    (tasks : List PullTask)
    (herr : ∀ n, env.futureResult n = .error e)
    (hrun : ∀ task ∈ tasks, task.status = .Running)
    (hne : tasks ≠ [])
    (hb : ∀ task ∈ tasks, env.doneAt task.fut ≤ fuel) :
    runEngine env fuel tasks = .error e := by
  rcases engineLoop_error_or_unchanged env e herr fuel 0 tasks hrun
      (by simpa using hb) with hloop | ⟨t', hloop⟩
  · simp [runEngine, hloop]
  · cases tasks with
    | nil => exact absurd rfl hne
    | cons task rest =>
      have hfin : finalUpdate env (task :: rest) = .error e := by
        have h1 : finalTask env task = .error e := by
          unfold finalTask
          rw [if_pos (hrun task (by simp)), herr task.fut]
        simp [finalUpdate, h1]
      simp [runEngine, hloop, hfin]

lemma statusOf_cases (rc : Int) :
    statusOf rc = .Success ∨ statusOf rc = .Failed := by
  unfold statusOf
  split
  · exact Or.inl rfl
  · exact Or.inr rfl

lemma statusOf_ne_running (rc : Int) : statusOf rc ≠ .Running := by
  rcases statusOf_cases rc with h | h <;> simp [h]

lemma statusOf_eq_success_iff (rc : Int) :
    statusOf rc = .Success ↔ rc = 0 := by
  unfold statusOf
  split
  · simp_all
  · simp_all

lemma initTasks_status (images : List String) :
    ∀ task ∈ initTasks images, task.status = .Running := by
  intro task h
  rcases List.mem_map.mp h with ⟨p, _, rfl⟩
  rfl

lemma dictInsert_length_ge (acc : List (String × Nat)) (img : String) (fi : Nat) :
    acc.length ≤ (dictInsert acc img fi).length := by
  unfold dictInsert
  split
  · simp
  · simp

lemma submitGo_length_ge (l : List String) :
    ∀ acc fi, acc.length ≤ (submitGo acc fi l).length := by
  induction l with
  | nil => intro acc fi; simp [submitGo]
  | cons img rest ih =>
    intro acc fi
    calc acc.length ≤ (dictInsert acc img fi).length := dictInsert_length_ge acc img fi
      _ ≤ (submitGo (dictInsert acc img fi) (fi + 1) rest).length := ih _ _

lemma initTasks_ne_nil (img : String) (rest : List String) :
    initTasks (img :: rest) ≠ [] := by
  have h1 : dictInsert [] img 0 = [(img, 0)] := rfl
  have h2 : (1 : Nat) ≤ (submitGo [(img, 0)] 1 rest).length := by
    simpa using submitGo_length_ge rest [(img, 0)] 1
  intro hcontra
  have h3 : (initTasks (img :: rest)).length = 0 := by rw [hcontra]; rfl
  have h4 : (initTasks (img :: rest)).length = (submitGo [(img, 0)] 1 rest).length := by
    simp [initTasks, submitAll, submitGo, h1]
  omega

/-- A `PullEnv` in which `shutil.which("docker")` finds nothing. -/
def envNoDocker : PullEnv :=
  { dockerExe := none, runPull := fun _ _ => { returncode := 0, stdout := "", stderr := "" } }

/-- A `PullEnv` in which docker is installed; every pull exits with code 1
and diagnostic text on standard error. -/
def envDockerFails : PullEnv :=
  { dockerExe := some "/usr/bin/docker"
    runPull := fun _ img => { returncode := 1, stdout := "", stderr := "pull access denied: " ++ img } }

/-- C2, counterexample: `pull_image` does raise.  With the docker executable
missing from PATH, `pull_image` propagates the `RuntimeError` raised by
`get_docker_executable` instead of returning a result record with a sentinel
exit code, contradicting the claim that it never raises. -/
theorem c2_pull_image_raises_counterexample :
    pull_image envNoDocker "alpine:latest" =
      Except.error "Docker executable not found in PATH." := rfl

/-- C2, amended: when the docker executable is missing from PATH,
`pull_image` raises `RuntimeError("Docker executable not found in PATH.")`;
when an executable is found it never raises and returns the completed
process of `docker pull <image>`, with exit code and captured stderr. -/
theorem c2_pull_image_behavior :
    (∀ (env : PullEnv) (image : String), env.dockerExe = none →
      pull_image env image = Except.error "Docker executable not found in PATH.") ∧
    (∀ (env : PullEnv) (image exe : String), env.dockerExe = some exe →
      pull_image env image = Except.ok (env.runPull exe image)) := by
  constructor
  · intro env image h
    simp [pull_image, get_docker_executable, h]
  · intro env image exe h
    simp [pull_image, get_docker_executable, h]

/-- C2, witness: both branches of the amended claim at concrete
environments. -/
theorem c2_pull_image_behavior_witness :
    pull_image envNoDocker "alpine:latest" =
      Except.error "Docker executable not found in PATH." ∧
    pull_image envDockerFails "alpine:latest" =
      Except.ok (envDockerFails.runPull "/usr/bin/docker" "alpine:latest") :=
  ⟨c2_pull_image_behavior.1 envNoDocker "alpine:latest" rfl,
   c2_pull_image_behavior.2 envDockerFails "alpine:latest" "/usr/bin/docker" rfl⟩

/-- The engine environment of a run in which no docker executable exists:
every worker raises, every future is immediately done holding the
exception. -/
def envLaunchFail : EngineEnv :=
  mkEngineEnv envNoDocker ["alpine:latest"] (fun _ => 0)

/-- C3, counterexample: with the docker executable missing, the single task
for "alpine:latest" never reaches the `Failed` state; instead the engine
run aborts with the uncaught `RuntimeError` re-raised by
`future.result()`, so the final task list with a `Failed` entry is never
produced. -/
theorem c3_launch_failure_counterexample :
    runEngine envLaunchFail 5 (initTasks ["alpine:latest"]) =
      Except.error "Docker executable not found in PATH." ∧
    (runEngine envLaunchFail 5 (initTasks ["alpine:latest"])).isOk = false := by
  constructor
  · rfl
  · rfl

/-- C3, amended: a pull invocation that cannot even launch raises
`RuntimeError` inside the worker; the coordinator's `future.result()` call
re-raises it, so the whole engine run aborts with that exception and no
task is ever marked `Failed` (nor left `Running`: the process dies). -/
theorem c3_launch_failure_aborts_engine
    (penv : PullEnv) (images : List String) (doneAt : Nat → Nat) (fuel : Nat)
    (hexe : penv.dockerExe = none) (hne : images ≠ [])
    (hb : ∀ n, doneAt n ≤ fuel) :
    runEngine (mkEngineEnv penv images doneAt) fuel (initTasks images) =
      Except.error "Docker executable not found in PATH." := by
  apply runEngine_error
  · intro n
    simp [mkEngineEnv, pull_image, get_docker_executable, hexe]
  · exact initTasks_status images
  · cases images with
    | nil => exact absurd rfl hne
    | cons img rest => exact initTasks_ne_nil img rest
  · intro task _
    exact hb task.fut

/-- C3, witness: the amended claim at a concrete one-image run. -/
theorem c3_launch_failure_aborts_engine_witness :
    runEngine (mkEngineEnv envNoDocker ["busybox:latest"] (fun _ => 0)) 3
      (initTasks ["busybox:latest"]) =
      Except.error "Docker executable not found in PATH." :=
  c3_launch_failure_aborts_engine envNoDocker ["busybox:latest"] (fun _ => 0) 3
    rfl (by simp) (fun _ => Nat.zero_le 3)

/-- C4: each status mutation the engine ever performs (the poll-loop update
`updateTask1` and the final update `finalTask` are the only two places a
task's status is written) leaves a terminal status untouched, and any
actual change goes from `Running` to `Success` or `Failed`.  Since terminal
states are absorbing, a task's status transitions at most once over the
whole run. -/
theorem c4_status_transitions
    (env : EngineEnv) (t : Nat) (task task' : PullTask)
    (hstep : updateTask1 env t task = .ok task' ∨ finalTask env task = .ok task') :
    ((task.status = .Success ∨ task.status = .Failed) → task' = task) ∧
    (task'.status ≠ task.status →
      task.status = .Running ∧ (task'.status = .Success ∨ task'.status = .Failed)) := by
  rcases hstep with h | h
  · unfold updateTask1 at h
    split at h
    · rename_i hc
      cases hr : env.futureResult task.fut with
      | ok r =>
        rw [hr] at h
        have htask' : task' = { task with status := statusOf r.returncode } :=
          (Except.ok.injEq _ _ ▸ h).symm
        constructor
        · intro hterm
          rcases hterm with hs | hs <;> simp [hc.2] at hs
        · intro _
          exact ⟨hc.2, by rw [htask']; exact statusOf_cases r.returncode⟩
      | error e => rw [hr] at h; exact absurd h (by simp)
    · have htask' : task' = task := (Except.ok.injEq _ _ ▸ h).symm
      constructor
      · intro _; exact htask'
      · intro hne; exact absurd (by rw [htask']) hne
  · unfold finalTask at h
    split at h
    · rename_i hc
      cases hr : env.futureResult task.fut with
      | ok r =>
        rw [hr] at h
        have htask' : task' = { task with status := statusOf r.returncode } :=
          (Except.ok.injEq _ _ ▸ h).symm
        constructor
        · intro hterm
          rcases hterm with hs | hs <;> simp [hc] at hs
        · intro _
          exact ⟨hc, by rw [htask']; exact statusOf_cases r.returncode⟩
      | error e => rw [hr] at h; exact absurd h (by simp)
    · have htask' : task' = task := (Except.ok.injEq _ _ ▸ h).symm
      constructor
      · intro _; exact htask'
      · intro hne; exact absurd (by rw [htask']) hne

/-- An engine environment whose single pull fails with exit code 1. -/
def envOneFailed : EngineEnv :=
  { futureResult := fun _ => .ok { returncode := 1, stdout := "", stderr := "no such image" }
    doneAt := fun _ => 0 }

/-- C4, witness: a concrete `Running → Failed` transition of the poll-loop
update satisfies the transition discipline. -/
theorem c4_status_transitions_witness :
    ({ image := "img", fut := 0, status := Status.Running } : PullTask).status = Status.Running ∧
    (({ image := "img", fut := 0, status := Status.Failed } : PullTask).status = Status.Success ∨
     ({ image := "img", fut := 0, status := Status.Failed } : PullTask).status = Status.Failed) :=
  (c4_status_transitions envOneFailed 0
    { image := "img", fut := 0, status := Status.Running }
    { image := "img", fut := 0, status := Status.Failed }
    (Or.inl rfl)).2 (by decide)

/-- C5: once every task's pull has completed with an exit code (every
future resolves without raising, and is done within the fuel bound), the
render loop exits and the final re-render after the trailing update loop
shows no task as `Running`: each task's final status is `Success` exactly
when its pull's exit code was 0, and `Failed` for any other exit code. -/
theorem c5_final_render_terminal
    (env : EngineEnv) (fuel : Nat) (tasks0 : List PullTask)
    (hrun : ∀ task ∈ tasks0, task.status = .Running)
    (hok : ∀ n, (env.futureResult n).isOk = true)
    (hb : ∀ task ∈ tasks0, env.doneAt task.fut ≤ fuel) :
    runEngine env fuel tasks0 = .ok (some (tasks0.map (finalOf env))) ∧
    (∀ task ∈ tasks0.map (finalOf env), task.status ≠ .Running) ∧
    (∀ task ∈ tasks0.map (finalOf env),
      (task.status = .Success ↔ resCode env task.fut = 0)) := by
  refine ⟨?_, ?_, ?_⟩
  · exact runEngine_ok env fuel tasks0 hok (fun task h => Or.inl (hrun task h)) hb
  · intro task h
    rcases List.mem_map.mp h with ⟨task0, _, rfl⟩
    exact statusOf_ne_running (resCode env task0.fut)
  · intro task h
    rcases List.mem_map.mp h with ⟨task0, _, rfl⟩
    exact statusOf_eq_success_iff (resCode env task0.fut)

/-- An engine environment with one successful pull (exit code 0),
done immediately. -/
def envOneSuccess : EngineEnv :=
  { futureResult := fun _ => .ok { returncode := 0, stdout := "pulled", stderr := "" }
    doneAt := fun _ => 0 }

/-- C5, witness: a concrete single-image run ends with the task `Success`
and nothing `Running`. -/
theorem c5_final_render_terminal_witness :
    runEngine envOneSuccess 1 (initTasks ["alpine:latest"]) =
      .ok (some ((initTasks ["alpine:latest"]).map (finalOf envOneSuccess))) ∧
    (∀ task ∈ (initTasks ["alpine:latest"]).map (finalOf envOneSuccess),
      task.status ≠ .Running) ∧
    (∀ task ∈ (initTasks ["alpine:latest"]).map (finalOf envOneSuccess),
      (task.status = .Success ↔ resCode envOneSuccess task.fut = 0)) :=
  c5_final_render_terminal envOneSuccess 1 (initTasks ["alpine:latest"])
    (initTasks_status ["alpine:latest"]) (fun _ => rfl)
    (fun _ _ => Nat.zero_le 1)

/-- Python `list(dict.fromkeys(l))` (coco.py line 235), and equally the key
sequence a dict builds up under repeated insertion: each element is added
the first time it is seen and skipped afterwards, preserving the position
of its first occurrence. -/
def dedupFromkeys [BEq α] (l : List α) : List α :=
  l.foldl (fun acc x => if listHas acc x then acc else acc ++ [x]) []

/-- Specification-level description of the deduplicated list: keep each
element at its first occurrence, erase every later occurrence of it, in
order ("first-occurrence order with duplicates removed"). -/
def firstOccurDedup [BEq α] : List α → List α
  | [] => []
  | x :: rest => x :: firstOccurDedup (rest.filter (fun y => !(x == y)))
termination_by l => l.length
decreasing_by
  simp_wf
  exact Nat.lt_succ_of_le (List.length_filter_le _ _)

lemma listHas_append_single [BEq α] (l : List α) (x a : α) :
    listHas (l ++ [x]) a = (listHas l a || (x == a)) := by
  simp [listHas, List.any_append]

lemma foldlDedup_eq_firstOccur [BEq α] :
    ∀ (l acc : List α),
      l.foldl (fun acc x => if listHas acc x then acc else acc ++ [x]) acc =
        acc ++ firstOccurDedup (l.filter (fun x => !(listHas acc x))) := by
  intro l
  induction l with
  | nil => intro acc; simp [firstOccurDedup]
  | cons x rest ih =>
    intro acc
    by_cases hx : listHas acc x = true
    · rw [List.foldl_cons]
      have hstep : (if listHas acc x then acc else acc ++ [x]) = acc := if_pos hx
      rw [hstep, ih acc, List.filter_cons]
      simp [hx]
    · rw [Bool.not_eq_true] at hx
      rw [List.foldl_cons]
      have hstep : (if listHas acc x then acc else acc ++ [x]) = acc ++ [x] := by
        rw [hx]; rfl
      rw [hstep, ih (acc ++ [x]), List.filter_cons]
      have hkeep : (!(listHas acc x)) = true := by rw [hx]; rfl
      rw [if_pos hkeep]
      have hfo : firstOccurDedup (x :: rest.filter (fun y => !(listHas acc y))) =
          x :: firstOccurDedup
            ((rest.filter (fun y => !(listHas acc y))).filter (fun y => !(x == y))) := by
        rw [firstOccurDedup]
      have hfilter : (rest.filter (fun y => !(listHas acc y))).filter (fun y => !(x == y)) =
          rest.filter (fun y => !(listHas (acc ++ [x]) y)) := by
        rw [List.filter_filter]
        apply List.filter_congr
        intro y _
        rw [listHas_append_single, Bool.not_or, Bool.and_comm]
      rw [hfo, hfilter, List.append_assoc, List.singleton_append]

lemma dedupFromkeys_eq_firstOccur [BEq α] (l : List α) :
    dedupFromkeys l = firstOccurDedup l := by
  unfold dedupFromkeys
  rw [foldlDedup_eq_firstOccur l []]
  have : l.filter (fun x => !(listHas [] x)) = l := by
    apply List.filter_true
  rw [List.nil_append, this]

lemma firstOccurDedup_length_aux [BEq α] :
    ∀ (n : Nat) (l : List α), l.length ≤ n →
      (firstOccurDedup l).length ≤ l.length := by
  intro n
  induction n with
  | zero =>
    intro l hl
    rw [Nat.le_zero, List.length_eq_zero] at hl
    subst hl
    simp [firstOccurDedup]
  | succ n ih =>
    intro l hl
    cases l with
    | nil => simp [firstOccurDedup]
    | cons x rest =>
      rw [firstOccurDedup]
      simp only [List.length_cons, Nat.succ_le_succ_iff]
      calc (firstOccurDedup (rest.filter (fun y => !(x == y)))).length
          ≤ (rest.filter (fun y => !(x == y))).length := by
            apply ih
            calc (rest.filter (fun y => !(x == y))).length ≤ rest.length :=
              List.length_filter_le _ _
              _ ≤ n := by simpa using Nat.succ_le_succ_iff.mp hl
        _ ≤ rest.length := List.length_filter_le _ _

lemma firstOccurDedup_mem_aux [BEq α] [LawfulBEq α] :
    ∀ (n : Nat) (l : List α), l.length ≤ n →
      ∀ a, a ∈ firstOccurDedup l ↔ a ∈ l := by
  intro n
  induction n with
  | zero =>
    intro l hl a
    rw [Nat.le_zero, List.length_eq_zero] at hl
    subst hl
    simp [firstOccurDedup]
  | succ n ih =>
    intro l hl a
    cases l with
    | nil => simp [firstOccurDedup]
    | cons x rest =>
      rw [firstOccurDedup]
      have hlen : (rest.filter (fun y => !(x == y))).length ≤ n := by
        calc (rest.filter (fun y => !(x == y))).length ≤ rest.length :=
          List.length_filter_le _ _
          _ ≤ n := by simpa using Nat.succ_le_succ_iff.mp hl
      constructor
      · intro h
        rcases List.mem_cons.mp h with rfl | h
        · exact List.mem_cons_self _ _
        · have := (ih _ hlen a).mp h
          exact List.mem_cons_of_mem x (List.mem_filter.mp this).1
      · intro h
        rcases List.mem_cons.mp h with rfl | h
        · exact List.mem_cons_self _ _
        · by_cases hax : a = x
          · subst hax; exact List.mem_cons_self _ _
          · apply List.mem_cons_of_mem
            apply (ih _ hlen a).mpr
            apply List.mem_filter.mpr
            refine ⟨h, ?_⟩
            have : (x == a) = false := beq_eq_false_iff_ne.mpr (fun hc => hax hc.symm)
            rw [this]; rfl

lemma firstOccurDedup_mem [BEq α] [LawfulBEq α] (l : List α) (a : α) :
    a ∈ firstOccurDedup l ↔ a ∈ l :=
  firstOccurDedup_mem_aux l.length l (Nat.le_refl _) a

lemma firstOccurDedup_nodup_aux [BEq α] [LawfulBEq α] :
    ∀ (n : Nat) (l : List α), l.length ≤ n → (firstOccurDedup l).Nodup := by
  intro n
  induction n with
  | zero =>
    intro l hl
    rw [Nat.le_zero, List.length_eq_zero] at hl
    subst hl
    simp [firstOccurDedup]
  | succ n ih =>
    intro l hl
    cases l with
    | nil => simp [firstOccurDedup]
    | cons x rest =>
      rw [firstOccurDedup]
      have hlen : (rest.filter (fun y => !(x == y))).length ≤ n := by
        calc (rest.filter (fun y => !(x == y))).length ≤ rest.length :=
          List.length_filter_le _ _
          _ ≤ n := by simpa using Nat.succ_le_succ_iff.mp hl
      apply List.nodup_cons.mpr
      constructor
      · intro hmem
        have hx : x ∈ rest.filter (fun y => !(x == y)) :=
          (firstOccurDedup_mem _ x).mp hmem
        have := (List.mem_filter.mp hx).2
        simp at this
      · exact ih _ hlen

lemma firstOccurDedup_nodup [BEq α] [LawfulBEq α] (l : List α) :
    (firstOccurDedup l).Nodup :=
  firstOccurDedup_nodup_aux l.length l (Nat.le_refl _)

lemma mapFst_dictInsert (acc : List (String × Nat)) (img : String) (fi : Nat) :
    (dictInsert acc img fi).map (fun p => p.1) =
      if listHas (acc.map (fun p => p.1)) img then acc.map (fun p => p.1)
      else acc.map (fun p => p.1) ++ [img] := by
  unfold dictInsert
  split
  · rw [List.map_map]
    apply List.map_congr_left
    intro p _
    by_cases h : (p.1 == img) = true
    · simp only [Function.comp_apply, h]
      split <;> rfl
    · simp only [Function.comp_apply, h]
      split <;> rfl
  · simp

lemma mapFst_submitGo :
    ∀ (l : List String) (acc : List (String × Nat)) (fi : Nat),
      (submitGo acc fi l).map (fun p => p.1) =
        l.foldl (fun a x => if listHas a x then a else a ++ [x])
          (acc.map (fun p => p.1)) := by
  intro l
  induction l with
  | nil => intro acc fi; rfl
  | cons img rest ih =>
    intro acc fi
    rw [submitGo, ih (dictInsert acc img fi) (fi + 1), mapFst_dictInsert,
      List.foldl_cons]

/-- C1, counterexample: the images file `"a\na\n"` holds K = 2 references,
but the pull path stores tasks in a dict keyed by the image string, so the
rendered table has a single row, not 2: the pull path does deduplicate its
input. -/
theorem c1_duplicate_rows_counterexample :
    ((build_status_table (initTasks ["a", "a"])).length ==
      (["a", "a"] : List String).length) = false := by rfl

/-- C1, amended: starting the pull engine submits one pull invocation per
input line, but the `tasks` dict is keyed by the image string, so duplicate
references collapse onto one Pull Task (keeping the first occurrence's
position and the last submission's future).  Every snapshot therefore lists
one row per distinct image reference, in first-occurrence submission
order. -/
theorem c1_snapshot_rows_dedup (images : List String) :
    (initTasks images).map PullTask.image = dedupFromkeys images ∧
    dedupFromkeys images = firstOccurDedup images ∧
    (build_status_table (initTasks images)).length = (firstOccurDedup images).length := by
  have hmain : (initTasks images).map PullTask.image = dedupFromkeys images := by
    unfold initTasks
    rw [List.map_map]
    have : ((fun task => task.image) ∘
        fun p : String × Nat => ({ image := p.1, fut := p.2, status := .Running } : PullTask)) =
        fun p : String × Nat => p.1 := rfl
    rw [this]
    rw [show (submitAll images) = submitGo [] 0 images from rfl,
      mapFst_submitGo images [] 0]
    rfl
  refine ⟨hmain, dedupFromkeys_eq_firstOccur images, ?_⟩
  have hlen : (build_status_table (initTasks images)).length = (initTasks images).length := by
    simp [build_status_table]
  rw [hlen, ← dedupFromkeys_eq_firstOccur images, ← hmain, List.length_map]

/-- Python values produced by `yaml.safe_load` on the resolver's standard
output: `None` (e.g. for empty input), strings, mappings (Python dicts,
insertion-ordered, string keys in compose documents) and sequences (Python
lists).  Other scalar kinds play no role in any property below and behave
like `null` for every operation modelled here. -/
inductive Yaml where
  | null
  | str (s : String)
  | map (entries : List (String × Yaml))
  | seq (items : List Yaml)

mutual

/-- Python `==` on decoded YAML values. -/
def Yaml.beq : Yaml → Yaml → Bool
  | .null, .null => true
  | .str a, .str b => a == b
  | .map a, .map b => Yaml.beqEntries a b
  | .seq a, .seq b => Yaml.beqItems a b
  | _, _ => false

/-- Pointwise equality of dict entries. -/
def Yaml.beqEntries : List (String × Yaml) → List (String × Yaml) → Bool
  | [], [] => true
  | (k, v) :: r, (k', v') :: r' => k == k' && Yaml.beq v v' && Yaml.beqEntries r r'
  | _, _ => false

/-- Pointwise equality of list items. -/
def Yaml.beqItems : List Yaml → List Yaml → Bool
  | [], [] => true
  | a :: r, b :: r' => Yaml.beq a b && Yaml.beqItems r r'
  | _, _ => false

end

instance : BEq Yaml := ⟨Yaml.beq⟩

/-- Python dict lookup `d.get(key)` on an entries list (keys are unique in
a decoded dict; the first match is the entry). -/
def lookupKey (entries : List (String × Yaml)) (key : String) : Option Yaml :=
  (entries.find? (fun p => p.1 == key)).map (fun p => p.2)

/-- Substring test on character lists, for Python `needle in haystack` on
strings. -/
def listHasSub (n : List Char) : List Char → Bool
  | [] => n.isEmpty
  | c :: t => n.isPrefixOf (c :: t) || listHasSub n t

/-- One step of the comprehension `service.get("image") for service in
services.values() if "image" in service` (coco.py lines 227-229) for a
single service value: a dict yields its "image" entry when the key is
present; `"image" in s` on a string is a substring test, and a hit then
raises `AttributeError` in `.get`; `"image" in l` on a list is membership,
and a hit likewise raises; `in` on `None` raises `TypeError`. -/
def serviceImageEntry : Yaml → Except String (Option Yaml)
  | .map fields => .ok (lookupKey fields "image")
  | .str s =>
    if listHasSub "image".toList s.toList then .error "AttributeError" else .ok none
  | .seq items =>
    if items.any (fun y => match y with | .str s => s == "image" | _ => false) then
      .error "AttributeError"
    else .ok none
  | .null => .error "TypeError"

/-- The whole comprehension (coco.py lines 227-229), evaluated left to
right; the first raised exception propagates. -/
def collectImages : List Yaml → Except String (List Yaml)
  | [] => .ok []
  | sv :: rest =>
    match serviceImageEntry sv with
    | .error e => .error e
    | .ok none => collectImages rest
    | .ok (some v) =>
      match collectImages rest with
      | .error e => .error e
      | .ok vs => .ok (v :: vs)

/-- Python `obj.get(key, default)` (coco.py line 226): only dicts have
`.get`; on `None`, a string or a list the attribute access raises
`AttributeError`. -/
def yamlGet (doc : Yaml) (key : String) (default : Yaml) : Except String Yaml :=
  match doc with
  | .map es => .ok ((lookupKey es key).getD default)
  | _ => .error "AttributeError"

/-- Python `obj.values()` (coco.py line 228): only dicts have `.values`. -/
def yamlValues : Yaml → Except String (List Yaml)
  | .map es => .ok (es.map (fun p => p.2))
  | _ => .error "AttributeError"

/-- The image-collection pipeline of `extract_images` on the parsed
document (coco.py lines 226-229): `compose_data.get("services", {})`, then
`.values()`, then the comprehension. -/
def imagesOfDoc (doc : Yaml) : Except String (List Yaml) :=
  match yamlGet doc "services" (.map []) with
  | .error e => .error e
  | .ok services =>
    match yamlValues services with
    | .error e => .error e
    | .ok svs => collectImages svs

/-- The declared image values of a list of service values that are all
dicts: the "image" entry of each service that has one, in service order,
duplicates kept. -/
def rawImages (svs : List Yaml) : List Yaml :=
  svs.filterMap (fun sv =>
    match sv with
    | .map fields => lookupKey fields "image"
    | _ => none)

/-- Python hashability of a decoded YAML value: dicts and lists are
unhashable, so `dict.fromkeys` raises `TypeError` on them. -/
def isHashable : Yaml → Bool
  | .map _ => false
  | .seq _ => false
  | _ => true

/-- Conversion of the unique image list to the written lines: `"\n".join`
raises `TypeError` at the first non-string item. -/
def asStrings : List Yaml → Except String (List String)
  | [] => .ok []
  | .str s :: rest =>
    match asStrings rest with
    | .error e => .error e
    | .ok ss => .ok (s :: ss)
  | _ :: _ => .error "TypeError"

/-- Outcome of one CLI command invocation: clean exit with code 0
(`typer.Exit()` or normal return), exit with code 1 (`typer.Exit(code=1)`),
an uncaught Python exception, or the fuel-exhaustion marker of the bounded
render-loop model (never reached under the termination hypotheses). -/
inductive CmdResult where
  | exit0
  | exit1
  | uncaught (msg : String)
  | unfinished
deriving DecidableEq, Repr

/-- The `extract_images` command (coco.py lines 203-240) after compose-file
discovery, as a function of the `docker compose convert` result, the
outcome of `yaml.safe_load` on its stdout, and the current contents of the
output file (`none` if absent).  Returns the command outcome and the new
file contents.  Faithful details: a non-zero convert exit or a YAML parse
error exit with code 1; `compose_data.get` on a non-dict raises; an empty
image list reports and exits 0 without touching the file; `dict.fromkeys`
raises on unhashable values before the file is opened; `open("w")`
truncates the file before `"\n".join` is evaluated, so a join `TypeError`
leaves an empty file behind. -/
def extract_images (resolve : CompletedProcess) (parsed : Except String Yaml)
    (fs : Option String) : CmdResult × Option String :=
  if resolve.returncode ≠ 0 then (.exit1, fs)
  else
    match parsed with
    | .error _ => (.exit1, fs)
    | .ok doc =>
      match imagesOfDoc doc with
      | .error e => (.uncaught e, fs)
      | .ok images =>
        if images.isEmpty then (.exit0, fs)
        else if images.any (fun y => !(isHashable y)) then (.uncaught "TypeError", fs)
        else
          match asStrings (dedupFromkeys images) with
          | .error e => (.uncaught e, some "")
          | .ok lines => (.exit0, some (String.intercalate "\n" lines))

/-- Reading the images file (coco.py lines 122-123): strip every line, keep
the non-blank ones, in order. -/
def readImages (lines : List String) : List String :=
  (lines.map String.trim).filter (fun s => !s.isEmpty)

/-- The `pull_images` command (coco.py lines 104-163) as a function of the
images-file contents (`none` when the file does not exist), the pull
environment, the completion schedule of the futures, and the loop fuel. -/
def pull_images (file : Option (List String)) (penv : PullEnv)
    (doneAt : Nat → Nat) (fuel : Nat) : CmdResult :=
  match file with
  | none => .exit1
  | some lines =>
    let images := readImages lines
    if images.isEmpty then .exit0
    else
      match runEngine (mkEngineEnv penv images doneAt) fuel (initTasks images) with
      | .error e => .uncaught e
      | .ok none => .unfinished
      | .ok (some _) => .exit0

lemma beq_str_str (a b : String) : (Yaml.str a == Yaml.str b) = (a == b) := rfl

lemma collectImages_of_maps :
    ∀ svs : List Yaml, (∀ sv ∈ svs, ∃ fields, sv = Yaml.map fields) →
      collectImages svs = .ok (rawImages svs) := by
  intro svs
  induction svs with
  | nil => intro _; rfl
  | cons sv rest ih =>
    intro hmaps
    rcases hmaps sv (by simp) with ⟨fields, rfl⟩
    have hrest := ih (fun sv h => hmaps sv (by simp [h]))
    cases hlk : lookupKey fields "image" with
    | none =>
      simp only [collectImages, serviceImageEntry, hlk, hrest, rawImages,
        List.filterMap_cons]
    | some v =>
      simp only [collectImages, serviceImageEntry, hlk, hrest, rawImages,
        List.filterMap_cons]

lemma asStrings_map_str (l : List String) :
    asStrings (l.map Yaml.str) = .ok l := by
  induction l with
  | nil => rfl
  | cons s rest ih => simp only [List.map_cons, asStrings, ih]

lemma any_unhashable_map_str (l : List String) :
    (l.map Yaml.str).any (fun y => !(isHashable y)) = false := by
  induction l with
  | nil => rfl
  | cons s rest ih =>
    rw [List.map_cons, List.any_cons, ih]
    rfl

lemma firstOccurDedup_map_str_aux :
    ∀ (n : Nat) (l : List String), l.length ≤ n →
      firstOccurDedup (l.map Yaml.str) = (firstOccurDedup l).map Yaml.str := by
  intro n
  induction n with
  | zero =>
    intro l hl
    rw [Nat.le_zero, List.length_eq_zero] at hl
    subst hl
    simp [firstOccurDedup]
  | succ n ih =>
    intro l hl
    cases l with
    | nil => simp [firstOccurDedup]
    | cons x rest =>
      rw [List.map_cons, firstOccurDedup, firstOccurDedup, List.map_cons]
      congr 1
      have hfilter : (rest.map Yaml.str).filter (fun y => !(Yaml.str x == y)) =
          (rest.filter (fun y => !(x == y))).map Yaml.str := by
        rw [List.filter_map]
        exact congrArg (List.map Yaml.str) (List.filter_congr (fun y _ => rfl))
      rw [hfilter]
      apply ih
      calc (rest.filter (fun y => !(x == y))).length ≤ rest.length :=
        List.length_filter_le _ _
        _ ≤ n := by simpa using Nat.succ_le_succ_iff.mp hl

lemma firstOccurDedup_map_str (l : List String) :
    firstOccurDedup (l.map Yaml.str) = (firstOccurDedup l).map Yaml.str :=
  firstOccurDedup_map_str_aux l.length l (Nat.le_refl _)

/-- C6: for a successfully parsed compose document whose services are
mappings declaring string image values, the extraction pipeline collects
exactly the declared image values in service order, and the unique list it
writes is their first-occurrence deduplication: no duplicates, same
membership, first-occurrence order; the command exits 0 and writes the
newline-joined unique list. -/
theorem c6_extract_images_dedup
    (resolve : CompletedProcess) (fs : Option String)
    (es ses : List (String × Yaml)) (strImages : List String)
    (hres : resolve.returncode = 0)
    (hsvc : (lookupKey es "services").getD (Yaml.map []) = Yaml.map ses)
    (hmaps : ∀ sv ∈ ses.map (fun p => p.2), ∃ fields, sv = Yaml.map fields)
    (himgs : rawImages (ses.map (fun p => p.2)) = strImages.map Yaml.str)
    (hne : strImages ≠ []) :
    imagesOfDoc (Yaml.map es) = .ok (strImages.map Yaml.str) ∧
    dedupFromkeys (strImages.map Yaml.str) = (firstOccurDedup strImages).map Yaml.str ∧
    (firstOccurDedup strImages).Nodup ∧
    (∀ s, s ∈ firstOccurDedup strImages ↔ s ∈ strImages) ∧
    extract_images resolve (.ok (Yaml.map es)) fs =
      (.exit0, some (String.intercalate "\n" (firstOccurDedup strImages))) := by
  have hdoc : imagesOfDoc (Yaml.map es) = .ok (strImages.map Yaml.str) := by
    simp only [imagesOfDoc, yamlGet, hsvc, yamlValues]
    rw [collectImages_of_maps (ses.map (fun p => p.2)) hmaps, himgs]
  have hdedup : dedupFromkeys (strImages.map Yaml.str) =
      (firstOccurDedup strImages).map Yaml.str := by
    rw [dedupFromkeys_eq_firstOccur, firstOccurDedup_map_str]
  refine ⟨hdoc, hdedup, firstOccurDedup_nodup strImages,
    fun s => firstOccurDedup_mem strImages s, ?_⟩
  have hne' : (strImages.map Yaml.str).isEmpty = false := by
    rw [List.isEmpty_eq_false]
    simpa using hne
  simp only [extract_images]
  rw [if_neg (by simp [hres])]
  simp only [hdoc, hne', any_unhashable_map_str, hdedup, asStrings_map_str,
    Bool.false_eq_true, if_false]

/-- Services mapping of the claim's example: `{a: image X, b: image X,
c: image Y}`. -/
def sesW : List (String × Yaml) :=
  [("a", Yaml.map [("image", Yaml.str "X")]),
   ("b", Yaml.map [("image", Yaml.str "X")]),
   ("c", Yaml.map [("image", Yaml.str "Y")])]

/-- The compose document of the claim's example. -/
def esW : List (String × Yaml) := [("services", Yaml.map sesW)]

/-- C6, witness: the claim's example document yields `[X, Y]` and writes
`"X\nY"`. -/
theorem c6_extract_images_dedup_witness :
    (imagesOfDoc (Yaml.map esW) = .ok ((["X", "X", "Y"] : List String).map Yaml.str) ∧
     dedupFromkeys ((["X", "X", "Y"] : List String).map Yaml.str) =
       (firstOccurDedup ["X", "X", "Y"]).map Yaml.str ∧
     (firstOccurDedup (["X", "X", "Y"] : List String)).Nodup ∧
     (∀ s, s ∈ firstOccurDedup (["X", "X", "Y"] : List String) ↔
       s ∈ (["X", "X", "Y"] : List String)) ∧
     extract_images { returncode := 0, stdout := "", stderr := "" }
       (.ok (Yaml.map esW)) none =
       (.exit0, some (String.intercalate "\n" (firstOccurDedup ["X", "X", "Y"])))) ∧
    extract_images { returncode := 0, stdout := "", stderr := "" }
      (.ok (Yaml.map esW)) none = (.exit0, some "X\nY") :=
  ⟨c6_extract_images_dedup { returncode := 0, stdout := "", stderr := "" } none
      esW sesW ["X", "X", "Y"] rfl rfl
      (by intro sv h; simp [sesW] at h; rcases h with rfl | rfl | rfl <;> exact ⟨_, rfl⟩)
      rfl (by simp),
   by rfl⟩

/-- C7: extraction is idempotent on the output file.  For the same
`docker compose convert` result and the same parse outcome, running the
command a second time starting from the file state the first run produced
leaves exactly that file state: branches that do not write leave the file
alone, and the written content does not depend on the previous file
contents. -/
theorem c7_extract_idempotent (resolve : CompletedProcess)
    (parsed : Except String Yaml) (fs : Option String) :
    (extract_images resolve parsed (extract_images resolve parsed fs).2).2 =
      (extract_images resolve parsed fs).2 := by
  by_cases hres : resolve.returncode ≠ 0
  · simp [extract_images, hres]
  · cases parsed with
    | error e => simp [extract_images, hres]
    | ok doc =>
      cases himg : imagesOfDoc doc with
      | error e => simp [extract_images, hres, himg]
      | ok images =>
        by_cases hemp : images.isEmpty
        · simp [extract_images, hres, himg, hemp]
        · by_cases hhash : images.any (fun y => !(isHashable y))
          · simp [extract_images, hres, himg, hemp, hhash]
          · cases hstr : asStrings (dedupFromkeys images) with
            | error e => simp [extract_images, hres, himg, hemp, hhash, hstr]
            | ok lines => simp [extract_images, hres, himg, hemp, hhash, hstr]

/-- C9: when the parsed compose document yields no declared image, the
command reports the empty result and exits cleanly with code 0 without
touching the output file: the previous contents (or absence) survive
unchanged. -/
theorem c9_empty_result_no_write (resolve : CompletedProcess) (doc : Yaml)
    (fs : Option String)
    (hres : resolve.returncode = 0)
    (hempty : imagesOfDoc doc = .ok []) :
    extract_images resolve (.ok doc) fs = (.exit0, fs) := by
  simp only [extract_images]
  rw [if_neg (by simp [hres])]
  simp [hempty]

/-- A compose document with one service that declares no image. -/
def docNoImages : Yaml :=
  Yaml.map [("services", Yaml.map [("a", Yaml.map [("build", Yaml.str ".")])])]

/-- C9, witness: a concrete no-image document exits 0 and leaves the
pre-existing file contents in place. -/
theorem c9_empty_result_no_write_witness :
    extract_images { returncode := 0, stdout := "", stderr := "" }
      (.ok docNoImages) (some "old contents") = (.exit0, some "old contents") :=
  c9_empty_result_no_write { returncode := 0, stdout := "", stderr := "" }
    docNoImages (some "old contents") rfl rfl

/-- C10: resolver standard output that is valid YAML but not a mapping is
not caught by the `yaml.YAMLError` branch.  Empty stdout parses to `None`,
and `compose_data.get("services", {})` then raises `AttributeError`, which
nothing catches: the command dies with an uncaught exception instead of
exiting with code 1 through the parse-error path (and instead of exit code
1's `(.exit1, _)` outcome, as the second conjunct checks). -/
theorem c10_null_document_uncaught :
    extract_images { returncode := 0, stdout := "", stderr := "" }
      (.ok Yaml.null) none = (.uncaught "AttributeError", none) ∧
    (decide (extract_images { returncode := 0, stdout := "", stderr := "" }
      (.ok Yaml.null) none = ((CmdResult.exit1 : CmdResult), (none : Option String)))) = false :=
  ⟨rfl, rfl⟩

/-- C8: the `pull-images` command exits 1 when the images file does not
exist; exits 0 when the file has no non-blank lines; and otherwise (docker
executable present, every future done within the loop's fuel bound) runs
the engine to completion and exits 0, whatever exit codes the individual
pulls produced. -/
theorem c8_pull_images_exit_codes :
    (∀ (penv : PullEnv) (doneAt : Nat → Nat) (fuel : Nat),
      pull_images none penv doneAt fuel = .exit1) ∧
    (∀ (lines : List String) (penv : PullEnv) (doneAt : Nat → Nat) (fuel : Nat),
      readImages lines = [] → pull_images (some lines) penv doneAt fuel = .exit0) ∧
    (∀ (lines : List String) (penv : PullEnv) (doneAt : Nat → Nat) (fuel : Nat)
      (exe : String), penv.dockerExe = some exe → (∀ n, doneAt n ≤ fuel) →
      pull_images (some lines) penv doneAt fuel = .exit0) := by
  refine ⟨fun _ _ _ => rfl, ?_, ?_⟩
  · intro lines penv doneAt fuel hempty
    simp [pull_images, hempty]
  · intro lines penv doneAt fuel exe hexe hb
    by_cases hemp : (readImages lines).isEmpty
    · simp [pull_images, hemp]
    · have hok : ∀ n,
          ((mkEngineEnv penv (readImages lines) doneAt).futureResult n).isOk = true := by
        intro n
        simp [mkEngineEnv, pull_image, get_docker_executable, hexe, Except.isOk,
          Except.toBool]
      have hrun := runEngine_ok (mkEngineEnv penv (readImages lines) doneAt) fuel
        (initTasks (readImages lines)) hok
        (fun task h => Or.inl (initTasks_status _ task h))
        (fun task _ => hb task.fut)
      simp [pull_images, hemp, hrun]

/-- C8, witness: the three branches at concrete inputs; the non-empty run
uses an environment in which every pull fails with exit code 1, and the
command still exits 0. -/
theorem c8_pull_images_exit_codes_witness :
    pull_images none envDockerFails (fun _ => 0) 1 = .exit1 ∧
    pull_images (some []) envDockerFails (fun _ => 0) 1 = .exit0 ∧
    pull_images (some ["alpine:latest"]) envDockerFails (fun _ => 0) 1 = .exit0 :=
  ⟨c8_pull_images_exit_codes.1 envDockerFails (fun _ => 0) 1,
   c8_pull_images_exit_codes.2.1 [] envDockerFails (fun _ => 0) 1 rfl,
   c8_pull_images_exit_codes.2.2 ["alpine:latest"] envDockerFails (fun _ => 0) 1
     "/usr/bin/docker" rfl (fun _ => Nat.zero_le 1)⟩
